import Mathlib

/-!
Verification of the response-completion and resilient-JSON subsystem
(`src/components/DeepResearch/hooks/responseCompletion.ts`).

The TypeScript source is shallowly embedded: strings are `List Char` /
`String`, the asynchronous generation capability is a function from the
attempt counter and prompt to an outcome, promise rejection is `Except`,
and each regular-expression replacement of the source is translated into
a dedicated scanner over `List Char` that reproduces the JavaScript
left-to-right global-replace semantics (try a match at each position,
emit the replacement, resume after the consumed segment).

Caveats of the embedding, stated once here: lengths count Unicode code
points rather than UTF-16 units, `toLowerCase` is modelled on ASCII
letters (the only case-bearing characters exercised by the code paths
under study), and the inter-retry delays of the source are modelled as
no-ops since they do not affect the returned value.
-/

namespace RespComp

/-! ### Basic character and string helpers -/

/-- Characters of the JavaScript `\s` class (also used by `trim` and
`split(/\s+/)`): ASCII whitespace plus NBSP and BOM. -/
def isJsWs (c : Char) : Bool :=
  c = ' ' || c = '\t' || c = '\n' || c = '\r' || c = '\x0b' || c = '\x0c' ||
  c = Char.ofNat 160 || c = Char.ofNat 65279

/-- The apostrophe character, `'`. -/
def apos : Char := Char.ofNat 39

/-- The opening curly brace character. -/
def lbrace : Char := Char.ofNat 123

/-- The closing curly brace character. -/
def rbrace : Char := Char.ofNat 125

/-- The backtick character. -/
def btick : Char := Char.ofNat 96

/-- JavaScript `String.prototype.trim` on a character list. -/
def trimL (l : List Char) : List Char :=
  ((l.dropWhile isJsWs).reverse.dropWhile isJsWs).reverse

/-- JavaScript `String.prototype.trim`. -/
def jsTrim (s : String) : String := String.mk (trimL s.data)

/-- Containment of `pat` as a contiguous sublist (JS `includes`). -/
def listIncl (pat : List Char) : List Char → Bool
  | [] => pat.isEmpty
  | c :: cs => pat.isPrefixOf (c :: cs) || listIncl pat cs

/-- JavaScript `String.prototype.includes`. -/
def strIncludes (s pat : String) : Bool := listIncl pat.data s.data

/-- ASCII lower-casing of a character, the fragment of JS `toLowerCase`
relevant here. -/
def jsLowerC (c : Char) : Char :=
  match c with
  | 'A' => 'a' | 'B' => 'b' | 'C' => 'c' | 'D' => 'd' | 'E' => 'e'
  | 'F' => 'f' | 'G' => 'g' | 'H' => 'h' | 'I' => 'i' | 'J' => 'j'
  | 'K' => 'k' | 'L' => 'l' | 'M' => 'm' | 'N' => 'n' | 'O' => 'o'
  | 'P' => 'p' | 'Q' => 'q' | 'R' => 'r' | 'S' => 's' | 'T' => 't'
  | 'U' => 'u' | 'V' => 'v' | 'W' => 'w' | 'X' => 'x' | 'Y' => 'y'
  | 'Z' => 'z'
  | d => d

/-- Lower-casing on character lists. -/
def lowerL (l : List Char) : List Char := l.map jsLowerC

/-- Lower-casing on strings (JS `toLowerCase`, ASCII fragment). -/
def lowerS (s : String) : String := String.mk (lowerL s.data)

/-- JavaScript `s.substring(0, n)`. -/
def jsSub0 (s : String) (n : Nat) : String := String.mk (s.data.take n)

/-- Characters of the JavaScript `\w` class: ASCII letters, digits, `_`. -/
def isWordChar (c : Char) : Bool := c.isAlpha || c.isDigit || c = '_'

/-! ### Whitespace tokenization (JS `split(/\s+/)` on trimmed input) -/

theorem dropWhile_length_le (p : Char → Bool) (l : List Char) :
    (l.dropWhile p).length ≤ l.length := by
  induction l with
  | nil => simp
  | cons c cs ih =>
    by_cases h : p c = true
    · simp [List.dropWhile, h]; omega
    · simp [List.dropWhile, h]

/-- Maximal whitespace-free runs of a character list, with a fuel
parameter for structural recursion; every recursive call strictly
shortens the list, so any fuel of at least `l.length + 1` is exact. -/
def wsTokensF : Nat → List Char → List (List Char)
  | 0, _ => []
  | _, [] => []
  | fuel + 1, c :: cs =>
    if isJsWs c then wsTokensF fuel cs
    else (c :: cs.takeWhile (fun d => !isJsWs d)) ::
      wsTokensF fuel (cs.dropWhile (fun d => !isJsWs d))

/-- Maximal whitespace-free runs of a character list. -/
def wsTokens (l : List Char) : List (List Char) := wsTokensF (l.length + 1) l

/-- JavaScript `s.split(/\s+/)` for an already-trimmed `s`: the empty
string yields the single empty token, any other trimmed string yields
its maximal whitespace-free runs. -/
def jsSplitWsT (s : String) : List String :=
  if s.data.isEmpty then [""] else (wsTokens s.data).map String.mk

/-- JavaScript `Array.prototype.join(' ')` on character lists. -/
def joinSpL : List (List Char) → List Char
  | [] => []
  | [w] => w
  | w :: ws => w ++ ' ' :: joinSpL ws

/-- JavaScript `Array.prototype.join(' ')` on strings. -/
def joinSp (ws : List String) : String := String.mk (joinSpL (ws.map String.data))

/-! ### `combinePartialResponses` -/

/-- One overlap probe of `combinePartialResponses`: the last `i` words of
the first text, space-joined and lower-cased, against the first `i` words
of the second. -/
def overlapCheck (w1 w2 : List String) (i : Nat) : Bool :=
  lowerS (joinSp (w1.drop (w1.length - i))) == lowerS (joinSp (w2.take i))

/-- The JS `for (let i = 1; i <= maxOverlap; i++) if (...) overlap = i`
loop: a left fold over `1..cap` that keeps the latest (hence largest)
matching `i`. -/
def overlapFold (w1 w2 : List String) (cap : Nat) : Nat :=
  (List.range' 1 cap).foldl (fun acc i => if overlapCheck w1 w2 i then i else acc) 0

/-- `combinePartialResponses` from the source: tokenize the trimmed
inputs, find the largest case-insensitive boundary overlap up to 10
tokens, and either splice or concatenate with a blank line. -/
def combinePartialResponses (first second : String) : String :=
  let firstTrimmed := jsTrim first
  let secondTrimmed := jsTrim second
  let words1 := jsSplitWsT firstTrimmed
  let words2 := jsSplitWsT secondTrimmed
  let maxOverlap := min 10 (min words1.length words2.length)
  let overlap := overlapFold words1 words2 maxOverlap
  if 0 < overlap then joinSp (words1 ++ words2.drop overlap)
  else firstTrimmed ++ "\n\n" ++ secondTrimmed

/-- Spec-side overlap predicate (4.1.2): the trailing `n` tokens of the
first text equal the leading `n` tokens of the second, case-insensitively
token by token. -/
def specTokensMatch (w1 w2 : List String) (n : Nat) : Prop :=
  (w1.drop (w1.length - n)).map lowerS = (w2.take n).map lowerS

instance (w1 w2 : List String) (n : Nat) : Decidable (specTokensMatch w1 w2 n) := by
  unfold specTokensMatch; infer_instance

/-- Spec-side overlap size: the largest `N` with `1 ≤ N ≤ min(10, |w1|, |w2|)`
whose trailing/leading token runs match, `0` if none. -/
def specOverlap (w1 w2 : List String) : Nat :=
  Nat.findGreatest (fun n => n ≠ 0 ∧ specTokensMatch w1 w2 n)
    (min 10 (min w1.length w2.length))

/-- The merge operation exactly as the specification words it. -/
def combineSpec (first second : String) : String :=
  let w1 := jsSplitWsT (jsTrim first)
  let w2 := jsSplitWsT (jsTrim second)
  let n := specOverlap w1 w2
  if 0 < n then joinSp (w1 ++ w2.drop n)
  else jsTrim first ++ "\n\n" ++ jsTrim second

/-! ### `detectResponseIssues`

The loop check of the source is the regular expression
`/(\b\w+\b)(?:\s+\1){5,}/gi`.  Its `test` succeeds exactly when some
maximal `\w`-run `w` (word boundaries force maximality) is followed by at
least five repetitions of "a nonempty whitespace run, then the characters
of `w` case-insensitively"; the final repetition is not required to end
at a word boundary.  `repStep`/`countReps`/`loopScan` implement exactly
that search. -/

/-- One `\s+\1` repetition: nonempty whitespace, then a case-insensitive
copy of `w`; returns the remainder after the copy. -/
def repStep (w : List Char) (l : List Char) : Option (List Char) :=
  let ws := l.takeWhile isJsWs
  if ws.isEmpty then none
  else
    let r := l.dropWhile isJsWs
    if (lowerL w).isPrefixOf (lowerL r) then some (r.drop w.length) else none

theorem repStep_length {w l r : List Char}
    (h : repStep w l = some r) : r.length < l.length := by
  unfold repStep at h
  by_cases he : (l.takeWhile isJsWs).isEmpty
  · simp [he] at h
  · simp only [he, if_false, Bool.false_eq_true] at h
    by_cases hp : (lowerL w).isPrefixOf (lowerL (l.dropWhile isJsWs)) = true
    · simp only [hp, if_true] at h
      have h1 : (l.takeWhile isJsWs).length + (l.dropWhile isJsWs).length = l.length := by
        rw [← List.length_append, List.takeWhile_append_dropWhile]
      have h2 : (l.takeWhile isJsWs).length ≠ 0 := by
        simpa [List.isEmpty_iff, List.length_eq_zero] using he
      have h3 : r.length ≤ (l.dropWhile isJsWs).length := by
        injection h with h4
        rw [← h4]; simp [Nat.sub_le]
      omega
    · simp [hp] at h

/-- Number of leading `\s+\1` repetitions of `w` in `l` (fuel form;
`repStep` strictly shortens the list by `repStep_length`, so fuel
`l.length + 1` is exact). -/
def countRepsF (w : List Char) : Nat → List Char → Nat
  | 0, _ => 0
  | fuel + 1, l =>
    match repStep w l with
    | none => 0
    | some rest => countRepsF w fuel rest + 1

/-- Number of leading `\s+\1` repetitions of `w` in `l`. -/
def countReps (w : List Char) (l : List Char) : Nat := countRepsF w (l.length + 1) l

/-- The regex test `/(\b\w+\b)(?:\s+\1){5,}/gi.test`: scan for a word-run
start, take the maximal word run there, and count its whitespace-separated
case-insensitive repetitions. -/
def loopScanF : Nat → List Char → Bool
  | 0, _ => false
  | _, [] => false
  | fuel + 1, c :: cs =>
    if isWordChar c then
      let w := c :: cs.takeWhile isWordChar
      let after := cs.dropWhile isWordChar
      (5 ≤ countReps w after) || loopScanF fuel after
    else loopScanF fuel cs

/-- String-level wrapper for the repetition-loop test. -/
def loopPatternTest (s : String) : Bool := loopScanF (s.data.length + 1) s.data

/-- Does the trimmed text end in `.`, `!` or `?` (the source's
`text.trim().match(/[.!?]$/)` test)? -/
def endsWithPunct (s : String) : Bool :=
  match s.data.getLast? with
  | some c => c = '.' || c = '!' || c = '?'
  | none => false

/-- Result record of issue detection, as in the source. -/
structure CompletionIssue where
  hasIssue : Bool
  reason : String
deriving DecidableEq, Repr

/-- `detectResponseIssues` from the source: four checks in fixed order,
first match wins. -/
def detectResponseIssues (text : String) : CompletionIssue :=
  if loopPatternTest text then
    { hasIssue := true, reason := "Repetitive loop detected" }
  else if 100 < text.length ∧ ¬ endsWithPunct (jsTrim text) then
    { hasIssue := true, reason := "Abrupt ending without punctuation" }
  else if strIncludes text "\x7b" ∧ ¬ strIncludes text "\x7d" then
    { hasIssue := true, reason := "Incomplete JSON structure" }
  else if strIncludes text "<think>" ∧ ¬ strIncludes text "</think>" then
    { hasIssue := true, reason := "Unclosed thinking tags" }
  else
    { hasIssue := false, reason := "" }

/-- Six consecutive equal entries somewhere in a list. -/
def sixRun : List (List Char) → Bool
  | a :: b :: c :: d :: e :: f :: rest =>
    (a == b && b == c && c == d && d == e && e == f) || sixRun (b :: c :: d :: e :: f :: rest)
  | _ => false

/-- Claim-side reading of the loop check: some run of at least six
consecutive equal word tokens (case-insensitively). -/
def hasSixTokenRun (text : String) : Bool :=
  sixRun ((wsTokens text.data).map lowerL)

/-! ### The completion controller `generateWithCompletion`

The generation capability is modelled as a function of the attempt
counter (the source passes only the prompt; indexing by the attempt
counter additionally covers capabilities whose behaviour varies between
calls) and the prompt.  The outcome of one call is either a resolved
`{text}`, a rejection carrying an error message, or failing to settle
within the configured timeout window — in which case the source's
`Promise.race` rejects with the internal `Error('Response timeout')`. -/

/-- Outcome of a single call of the wrapped generation capability. -/
inductive GenOutcome where
  | success (text : String)
  | failure (msg : String)
  | hang
deriving DecidableEq

/-- Option record of the source (`maxRetries?`, `timeout?`,
`continuationPrompt?`). -/
structure ResponseCompletionOptions where
  maxRetries : Option Nat := none
  timeout : Option Nat := none
  continuationPrompt : Option String := none
deriving DecidableEq

def RESPONSE_TIMEOUT : Nat := 600000

def MAX_RETRIES : Nat := 3

def CONTINUATION_PROMPT : String :=
  "Please complete your previous response starting from where you left off."

/-- JavaScript `x || d` for an optional number: an absent or zero
(falsy) value yields the default. -/
def jsOrNat (o : Option Nat) (d : Nat) : Nat :=
  match o with
  | none => d
  | some n => if n = 0 then d else n

/-- JavaScript `x || d` for an optional string: an absent or empty
(falsy) value yields the default. -/
def jsOrStr (o : Option String) (d : String) : String :=
  match o with
  | none => d
  | some s => if s = "" then d else s

/-- The shortened prompt used by the timeout-recovery branch:
`prompt.substring(0, 500) + '\n\nPlease provide a direct answer.'` when
the prompt exceeds 500 characters, the prompt unchanged otherwise. -/
def shorterOf (prompt : String) : String :=
  if 500 < prompt.length then jsSub0 prompt 500 ++ "\n\nPlease provide a direct answer."
  else prompt

/-! #### `createSimplifiedPrompt` and its query-extraction regex

The source matches `/(?:Query|Question|User asks?):\s*["']?([^"'\n]+)["']?/i`
and uses capture group 1.  The scan below reproduces the backtracking:
alternatives in order at each position, greedy `\s*` given back one
character at a time when the quote/value part cannot match. -/

/-- Is `c` outside the class `[^"'\n]`? -/
def inQClass (c : Char) : Bool := !(c = '"' || c = apos || c = '\n')

/-- Try `["']?([^"'\n]+)` at this position and return the capture. -/
def attemptCap (tail : List Char) : Option (List Char) :=
  match tail with
  | [] => none
  | c :: rest =>
    if c = '"' || c = apos then
      let run := rest.takeWhile inQClass
      if run.isEmpty then none else some run
    else
      let run := tail.takeWhile inQClass
      if run.isEmpty then none else some run

/-- Backtrack over the greedy `\s*`: try the capture with all whitespace
consumed first, then give back one whitespace character at a time. -/
def wsBacktrack : List Char → List Char → Option (List Char)
  | revWs, tail =>
    match attemptCap tail with
    | some cap => some cap
    | none =>
      match revWs with
      | [] => none
      | w :: ws => wsBacktrack ws (w :: tail)

/-- Case-insensitive literal prefix test. -/
def ciPrefix (pat l : List Char) : Bool := (lowerL pat).isPrefixOf (lowerL l)

/-- Match one keyword alternative, the `:`, and the value part at this
position; returns the capture. -/
def kwTry (pat : List Char) (l : List Char) : Option (List Char) :=
  if ciPrefix pat l then
    match l.drop pat.length with
    | ':' :: rest =>
      let wsRun := rest.takeWhile isJsWs
      wsBacktrack wsRun.reverse (rest.dropWhile isJsWs)
    | _ => none
  else none

/-- The full pattern at this position, alternatives in regex order. -/
def kwAt (l : List Char) : Option (List Char) :=
  (kwTry "Query".data l).orElse fun _ =>
  (kwTry "Question".data l).orElse fun _ =>
  (kwTry "User asks".data l).orElse fun _ =>
  kwTry "User ask".data l

/-- First match of the query-extraction pattern in the text. -/
def firstKwCapture : List Char → Option (List Char)
  | [] => none
  | c :: cs =>
    match kwAt (c :: cs) with
    | some cap => some cap
    | none => firstKwCapture cs

/-- `createSimplifiedPrompt` from the source. -/
def createSimplifiedPrompt (originalPrompt : String) : String :=
  let query :=
    match firstKwCapture originalPrompt.data with
    | some cap => String.mk cap
    | none => "Please extract relevant information"
  "Extract information to answer: " ++ query ++
    "\n\nProvide a direct, simple answer with key facts only.\nNo thinking, no analysis, just the facts."

/-! #### The controller itself -/

/-- `generateWithCompletion`, instrumented with the chronological list of
`(attempt, prompt)` invocations of the generation capability.  The
source's single `try`/`catch` is modelled by first computing the
try-block outcome (`.ok` returned text / `.error` thrown message) and
then running the catch-block dispatch on a thrown message.  The source
nests `if (message.includes(...)) { if (attempt < maxRetries) { retry } }`
with fall-through; since every recovery branch requires
`attempt < maxRetries` and otherwise falls through to the final
re-throw, the conjunctive flattening below is equivalent. -/
def generateWithCompletionT (generateFn : Nat → String → GenOutcome)
    (options : ResponseCompletionOptions) (attempt : Nat) (prompt : String) :
    Except String String × List (Nat × String) :=
  let maxRetries := jsOrNat options.maxRetries MAX_RETRIES
  let continuationPrompt := jsOrStr options.continuationPrompt CONTINUATION_PROMPT
  let tryOutcome : Except String String × List (Nat × String) :=
    match generateFn attempt prompt with
    | .hang => (.error "Response timeout", [(attempt, prompt)])
    | .failure msg => (.error msg, [(attempt, prompt)])
    | .success text =>
      if jsTrim text = "" then (.error "Model returned empty response", [(attempt, prompt)])
      else
        let completionIssue := detectResponseIssues text
        if _h : completionIssue.hasIssue = true ∧ attempt < maxRetries then
          let continuationText :=
            prompt ++ "\n\nPrevious partial response:\n" ++ text ++ "\n\n" ++ continuationPrompt
          match generateWithCompletionT generateFn options (attempt + 1) continuationText with
          | (.ok continuedResponse, calls) =>
            (.ok (combinePartialResponses text continuedResponse), (attempt, prompt) :: calls)
          | (.error msg, calls) => (.error msg, (attempt, prompt) :: calls)
        else (.ok text, [(attempt, prompt)])
  match tryOutcome with
  | (.ok v, calls) => (.ok v, calls)
  | (.error msg, calls) =>
    if _h1 : (strIncludes msg "Invalid JSON response" = true ∨
        strIncludes msg "Ollama API rejected response" = true) ∧ attempt < maxRetries then
      let next := generateWithCompletionT generateFn options (attempt + 1) (createSimplifiedPrompt prompt)
      (next.1, calls ++ next.2)
    else if _h2 : strIncludes msg "done\": false" = true ∧ attempt < maxRetries then
      let next := generateWithCompletionT generateFn options (attempt + 1) prompt
      (next.1, calls ++ next.2)
    else if _h3 : strIncludes msg "timeout" = true ∧ attempt < maxRetries then
      let next := generateWithCompletionT generateFn options (attempt + 1) (shorterOf prompt)
      (next.1, calls ++ next.2)
    else (.error msg, calls)
termination_by jsOrNat options.maxRetries MAX_RETRIES + 1 - attempt
decreasing_by all_goals omega

/-- The value returned (or error thrown) by `generateWithCompletion`. -/
def generateWithCompletion (generateFn : Nat → String → GenOutcome)
    (options : ResponseCompletionOptions) (attempt : Nat) (prompt : String) :
    Except String String :=
  (generateWithCompletionT generateFn options attempt prompt).1

/-! ### Lemmas about the overlap search of `combinePartialResponses` -/

theorem overlapFold_eq_findGreatest (w1 w2 : List String) (cap : Nat) :
    overlapFold w1 w2 cap = Nat.findGreatest (fun n => overlapCheck w1 w2 n = true) cap := by
  induction cap with
  | zero => rfl
  | succ n ih =>
    unfold overlapFold at *
    rw [List.range'_concat, List.foldl_append, ih, Nat.findGreatest_succ]
    simp only [List.foldl_cons, List.foldl_nil, Nat.one_mul, Nat.add_comm 1 n]

theorem findGreatest_congr_below (P Q : Nat → Prop) [DecidablePred P] [DecidablePred Q]
    (cap : Nat) (h : ∀ n, 0 < n → n ≤ cap → (P n ↔ Q n)) :
    Nat.findGreatest P cap = Nat.findGreatest Q cap := by
  induction cap with
  | zero => rfl
  | succ n ih =>
    rw [Nat.findGreatest_succ, Nat.findGreatest_succ]
    have hn : P (n + 1) ↔ Q (n + 1) := h _ (Nat.succ_pos n) le_rfl
    by_cases hp : P (n + 1)
    · simp [hp, hn.mp hp]
    · have hq : ¬ Q (n + 1) := fun hq => hp (hn.mpr hq)
      simp only [hp, hq, if_false]
      exact ih fun m hm hmle => h m hm (Nat.le_succ_of_le hmle)

theorem wsTokensF_noWs (fuel : Nat) :
    ∀ (l : List Char), ∀ w ∈ wsTokensF fuel l, ∀ c ∈ w, isJsWs c = false := by
  induction fuel with
  | zero => intro l w hw; simp [wsTokensF] at hw
  | succ n ih =>
    intro l w hw
    match l with
    | [] => simp [wsTokensF] at hw
    | c :: cs =>
      by_cases h : isJsWs c
      · rw [wsTokensF, if_pos h] at hw
        exact ih cs w hw
      · rw [wsTokensF, if_neg h] at hw
        rcases List.mem_cons.mp hw with rfl | hw
        · intro d hd
          rcases List.mem_cons.mp hd with rfl | hd
          · simpa using h
          · simpa using List.mem_takeWhile_imp hd
        · exact ih _ w hw

theorem jsSplitWsT_noWs (s : String) :
    ∀ w ∈ jsSplitWsT s, ∀ c ∈ w.data, isJsWs c = false := by
  intro w hw
  unfold jsSplitWsT at hw
  by_cases he : s.data.isEmpty
  · simp only [he, if_pos] at hw
    simp at hw
    subst hw
    intro c hc
    simp [String.data] at hc
  · simp only [he, if_neg, Bool.false_eq_true] at hw
    rcases List.mem_map.mp hw with ⟨w', hw', rfl⟩
    exact wsTokensF_noWs _ _ w' hw'

theorem lowerL_joinSpL (xs : List (List Char)) :
    lowerL (joinSpL xs) = joinSpL (xs.map lowerL) := by
  induction xs with
  | nil => rfl
  | cons w ws ih =>
    cases ws with
    | nil => rfl
    | cons w' ws' =>
      show lowerL (w ++ ' ' :: joinSpL (w' :: ws')) = _
      rw [lowerL, List.map_append]
      simp only [List.map_cons]
      rw [show jsLowerC ' ' = ' ' from rfl]
      show _ ++ ' ' :: lowerL (joinSpL (w' :: ws')) = _
      rw [ih]
      rfl

theorem isJsWs_jsLowerC (c : Char) (h : isJsWs c = false) : isJsWs (jsLowerC c) = false := by
  unfold jsLowerC
  split
  all_goals first | decide | assumption

theorem sep_append_inj {a u : List Char} :
    ∀ {b v : List Char}, (∀ c ∈ a, isJsWs c = false) → (∀ c ∈ b, isJsWs c = false) →
    a ++ ' ' :: u = b ++ ' ' :: v → a = b ∧ u = v := by
  induction a with
  | nil =>
    intro b v _ hb h
    cases b with
    | nil => simpa using h
    | cons d bs =>
      exfalso
      simp only [List.nil_append, List.cons_append, List.cons.injEq] at h
      have hd : isJsWs d = false := hb d (List.mem_cons_self d bs)
      rw [← h.1] at hd
      simp [isJsWs] at hd
  | cons c as ih =>
    intro b v ha hb h
    cases b with
    | nil =>
      exfalso
      simp only [List.cons_append, List.nil_append, List.cons.injEq] at h
      have hc : isJsWs c = false := ha c (List.mem_cons_self c as)
      rw [h.1] at hc
      simp [isJsWs] at hc
    | cons d bs =>
      simp only [List.cons_append, List.cons.injEq] at h
      obtain ⟨rfl, h2⟩ := h
      have := ih (fun x hx => ha x (List.mem_cons_of_mem _ hx))
        (fun x hx => hb x (List.mem_cons_of_mem _ hx)) h2
      exact ⟨by rw [this.1], this.2⟩

theorem joinSpL_inj :
    ∀ (xs ys : List (List Char)), xs.length = ys.length →
    (∀ w ∈ xs, ∀ c ∈ w, isJsWs c = false) → (∀ w ∈ ys, ∀ c ∈ w, isJsWs c = false) →
    joinSpL xs = joinSpL ys → xs = ys := by
  intro xs
  induction xs with
  | nil =>
    intro ys hlen _ _ _
    cases ys with
    | nil => rfl
    | cons y ys' => simp at hlen
  | cons x xs ih =>
    intro ys hlen hx hy hj
    cases ys with
    | nil => simp at hlen
    | cons y ys' =>
      cases xs with
      | nil =>
        cases ys' with
        | nil => simpa [joinSpL] using hj
        | cons y' ys'' => simp at hlen
      | cons x' xs' =>
        cases ys' with
        | nil => simp at hlen
        | cons y' ys'' =>
          have hj' : x ++ ' ' :: joinSpL (x' :: xs') = y ++ ' ' :: joinSpL (y' :: ys'') := hj
          have hxy := sep_append_inj (hx x (List.mem_cons_self _ _)) (hy y (List.mem_cons_self _ _)) hj'
          have htail := ih (y' :: ys'') (by simpa using hlen)
            (fun w hw => hx w (List.mem_cons_of_mem _ hw))
            (fun w hw => hy w (List.mem_cons_of_mem _ hw)) hxy.2
          rw [hxy.1, htail]

theorem stringMk_inj : Function.Injective String.mk := by
  intro a b h
  injection h

theorem overlapCheck_iff (w1 w2 : List String)
    (h1 : ∀ w ∈ w1, ∀ c ∈ w.data, isJsWs c = false)
    (h2 : ∀ w ∈ w2, ∀ c ∈ w.data, isJsWs c = false)
    (n : Nat) (hn1 : 0 < n) (hle1 : n ≤ w1.length) (hle2 : n ≤ w2.length) :
    (overlapCheck w1 w2 n = true ↔ (n ≠ 0 ∧ specTokensMatch w1 w2 n)) := by
  have hA : ∀ w ∈ w1.drop (w1.length - n), ∀ c ∈ w.data, isJsWs c = false :=
    fun w hw => h1 w (List.mem_of_mem_drop hw)
  have hB : ∀ w ∈ w2.take n, ∀ c ∈ w.data, isJsWs c = false :=
    fun w hw => h2 w (List.mem_of_mem_take hw)
  set A := w1.drop (w1.length - n) with hAdef
  set B := w2.take n with hBdef
  have hlenA : A.length = n := by
    rw [hAdef, List.length_drop]; omega
  have hlenB : B.length = n := by
    rw [hBdef, List.length_take]; omega
  constructor
  · intro h
    refine ⟨Nat.pos_iff_ne_zero.mp hn1, ?_⟩
    unfold overlapCheck at h
    rw [beq_iff_eq] at h
    unfold lowerS joinSp at h
    have h' : lowerL (joinSpL (A.map String.data)) = lowerL (joinSpL (B.map String.data)) :=
      stringMk_inj h
    rw [lowerL_joinSpL, lowerL_joinSpL, List.map_map, List.map_map] at h'
    have hAfree : ∀ w ∈ A.map (lowerL ∘ String.data), ∀ c ∈ w, isJsWs c = false := by
      intro w hw c hc
      rcases List.mem_map.mp hw with ⟨w', hw', rfl⟩
      rcases List.mem_map.mp hc with ⟨c', hc', rfl⟩
      exact isJsWs_jsLowerC c' (hA w' hw' c' hc')
    have hBfree : ∀ w ∈ B.map (lowerL ∘ String.data), ∀ c ∈ w, isJsWs c = false := by
      intro w hw c hc
      rcases List.mem_map.mp hw with ⟨w', hw', rfl⟩
      rcases List.mem_map.mp hc with ⟨c', hc', rfl⟩
      exact isJsWs_jsLowerC c' (hB w' hw' c' hc')
    have heq := joinSpL_inj _ _ (by simp [hlenA, hlenB]) hAfree hBfree h'
    unfold specTokensMatch
    rw [← hAdef, ← hBdef]
    have : (A.map (lowerL ∘ String.data)).map String.mk = (B.map (lowerL ∘ String.data)).map String.mk := by
      rw [heq]
    simpa [List.map_map, lowerS, lowerL, Function.comp] using this
  · rintro ⟨-, hmatch⟩
    unfold specTokensMatch at hmatch
    rw [← hAdef, ← hBdef] at hmatch
    unfold overlapCheck
    rw [beq_iff_eq]
    unfold lowerS joinSp
    congr 1
    rw [lowerL_joinSpL, lowerL_joinSpL, List.map_map, List.map_map]
    have : (A.map (lowerL ∘ String.data)).map String.mk = (B.map (lowerL ∘ String.data)).map String.mk := by
      simpa [List.map_map, lowerS, lowerL, Function.comp] using hmatch
    exact congrArg joinSpL (List.map_injective_iff.mpr stringMk_inj this)

theorem combine_eq_spec (a b : String) : combinePartialResponses a b = combineSpec a b := by
  unfold combinePartialResponses combineSpec
  have hfold : overlapFold (jsSplitWsT (jsTrim a)) (jsSplitWsT (jsTrim b))
      (min 10 (min (jsSplitWsT (jsTrim a)).length (jsSplitWsT (jsTrim b)).length)) =
      specOverlap (jsSplitWsT (jsTrim a)) (jsSplitWsT (jsTrim b)) := by
    rw [overlapFold_eq_findGreatest]
    unfold specOverlap
    apply findGreatest_congr_below
    intro n hn hle
    have hm1 : min 10 (min (jsSplitWsT (jsTrim a)).length (jsSplitWsT (jsTrim b)).length) ≤
        min (jsSplitWsT (jsTrim a)).length (jsSplitWsT (jsTrim b)).length := Nat.min_le_right _ _
    have hm2 : min (jsSplitWsT (jsTrim a)).length (jsSplitWsT (jsTrim b)).length ≤
        (jsSplitWsT (jsTrim a)).length := Nat.min_le_left _ _
    have hm3 : min (jsSplitWsT (jsTrim a)).length (jsSplitWsT (jsTrim b)).length ≤
        (jsSplitWsT (jsTrim b)).length := Nat.min_le_right _ _
    exact overlapCheck_iff _ _ (jsSplitWsT_noWs _) (jsSplitWsT_noWs _) n hn
      (by omega) (by omega)
  simp only [hfold]

/-! ### Claim theorems -/

/-- C5: `combinePartialResponses` tokenizes both trimmed inputs on
whitespace and merges on the largest case-insensitive overlap `N` with
`1 ≤ N ≤ min(10, token counts)` between the trailing `N` tokens of the
first input and the leading `N` tokens of the second, returning the first
input's tokens followed by the second's tokens from index `N` onward,
space-joined; with no such overlap it returns the two trimmed strings
joined by a blank line.  In particular the two worked examples of the
specification hold. -/
theorem C5_combinePartialResponses :
    (∀ a b : String, combinePartialResponses a b = combineSpec a b) ∧
    combinePartialResponses "The cat sat on the" "the mat today" =
      "The cat sat on the mat today" ∧
    combinePartialResponses "Hello world" "Goodbye now" = "Hello world\n\nGoodbye now" :=
  ⟨combine_eq_spec, by decide, by decide⟩

/-- C6 (amended): `detectResponseIssues` applies its four checks in the
fixed order loop, abrupt ending, incomplete JSON, unclosed thinking
block, first match wins, and a text matching none yields no issue — but
the loop check is the regex `/(\b\w+\b)(?:\s+\1){5,}/gi` (`loopPatternTest`),
whose final repetition may be a proper prefix of a longer token, rather
than literally "a token repeated six or more times".  The two concrete
examples of the specification are also verified. -/
theorem C6_detectResponseIssues_order :
    (∀ text : String,
      ((detectResponseIssues text).hasIssue = false ↔
        (loopPatternTest text = false ∧
          ¬ (100 < text.length ∧ ¬ endsWithPunct (jsTrim text)) ∧
          ¬ (strIncludes text "\x7b" ∧ ¬ strIncludes text "\x7d") ∧
          ¬ (strIncludes text "<think>" ∧ ¬ strIncludes text "</think>"))) ∧
      ((detectResponseIssues text).reason = "Repetitive loop detected" ↔
        loopPatternTest text = true) ∧
      ((detectResponseIssues text).reason = "Abrupt ending without punctuation" ↔
        (loopPatternTest text = false ∧
          (100 < text.length ∧ ¬ endsWithPunct (jsTrim text)))) ∧
      ((detectResponseIssues text).reason = "Incomplete JSON structure" ↔
        (loopPatternTest text = false ∧
          ¬ (100 < text.length ∧ ¬ endsWithPunct (jsTrim text)) ∧
          (strIncludes text "\x7b" ∧ ¬ strIncludes text "\x7d"))) ∧
      ((detectResponseIssues text).reason = "Unclosed thinking tags" ↔
        (loopPatternTest text = false ∧
          ¬ (100 < text.length ∧ ¬ endsWithPunct (jsTrim text)) ∧
          ¬ (strIncludes text "\x7b" ∧ ¬ strIncludes text "\x7d") ∧
          (strIncludes text "<think>" ∧ ¬ strIncludes text "</think>")))) ∧
    detectResponseIssues "word word word word word word word" =
      { hasIssue := true, reason := "Repetitive loop detected" } ∧
    detectResponseIssues "This is a complete sentence." = { hasIssue := false, reason := "" } := by
  refine ⟨fun text => ?_, by decide, by decide⟩
  unfold detectResponseIssues
  split_ifs with h1 h2 h3 h4 <;> simp_all

/-- C6 (counterexample): `"word word word word word wordy"` contains no
word token repeated six consecutive times and satisfies none of the other
three described conditions, yet `detectResponseIssues` reports a
repetitive loop — the regex accepts the trailing `"word"`-prefix of
`"wordy"` as its fifth repetition. -/
theorem C6_counterexample :
    detectResponseIssues "word word word word word wordy" =
      { hasIssue := true, reason := "Repetitive loop detected" } ∧
    hasSixTokenRun "word word word word word wordy" = false ∧
    ¬ (100 < ("word word word word word wordy" : String).length) ∧
    strIncludes "word word word word word wordy" "\x7b" = false ∧
    strIncludes "word word word word word wordy" "<think>" = false := by
  decide

/-- C7: once `attempt ≥ maxRetries`, a generation that resolves with a
non-empty text in which an issue is detected is returned unchanged, the
capability is called exactly once and no continuation is attempted. -/
theorem C7_exhausted_returns_raw_text (gen : Nat → String → GenOutcome)
    (o : ResponseCompletionOptions) (a : Nat) (p t : String)
    (hgen : gen a p = .success t) (hne : jsTrim t ≠ "")
    (_hissue : (detectResponseIssues t).hasIssue = true)
    (hmax : jsOrNat o.maxRetries MAX_RETRIES ≤ a) :
    generateWithCompletionT gen o a p = (.ok t, [(a, p)]) := by
  rw [generateWithCompletionT]
  have hcond : ¬ ((detectResponseIssues t).hasIssue = true ∧
      a < jsOrNat o.maxRetries MAX_RETRIES) := by
    rintro ⟨-, hlt⟩; omega
  simp [hgen, hne, hcond]

/-- C7 (witness): with `maxRetries = 1` and a capability resolving with
`"{"` (an incomplete-JSON issue), the raw text is returned after one
call. -/
theorem C7_witness :
    (fun _ _ => GenOutcome.success "\x7b") 1 "p" = GenOutcome.success "\x7b" ∧
    jsTrim "\x7b" ≠ "" ∧
    (detectResponseIssues "\x7b").hasIssue = true ∧
    jsOrNat (ResponseCompletionOptions.mk (some 1) none none).maxRetries MAX_RETRIES ≤ 1 ∧
    generateWithCompletionT (fun _ _ => GenOutcome.success "\x7b")
      (ResponseCompletionOptions.mk (some 1) none none) 1 "p" = (.ok "\x7b", [(1, "p")]) :=
  ⟨rfl, by decide, by decide, by decide,
    C7_exhausted_returns_raw_text _ _ _ _ _ rfl (by decide) (by decide) (by decide)⟩

/-- C8: a generation resolving with empty or whitespace-only text makes
`generateWithCompletion` reject with the `EmptyResponse` error
`"Model returned empty response"` after a single call, for every attempt
counter and options record; that message contains none of the three retry
substrings, so no recovery branch fires. -/
theorem C8_empty_response_fatal (gen : Nat → String → GenOutcome)
    (o : ResponseCompletionOptions) (a : Nat) (p t : String)
    (hgen : gen a p = .success t) (hws : jsTrim t = "") :
    generateWithCompletionT gen o a p = (.error "Model returned empty response", [(a, p)]) ∧
    strIncludes "Model returned empty response" "Invalid JSON response" = false ∧
    strIncludes "Model returned empty response" "done\": false" = false ∧
    strIncludes "Model returned empty response" "timeout" = false := by
  refine ⟨?_, by decide, by decide, by decide⟩
  rw [generateWithCompletionT]
  simp only [hgen, hws]
  have c1 : strIncludes "Model returned empty response" "Invalid JSON response" = false := by decide
  have c2 : strIncludes "Model returned empty response" "Ollama API rejected response" = false := by decide
  have c3 : strIncludes "Model returned empty response" "done\": false" = false := by decide
  have c4 : strIncludes "Model returned empty response" "timeout" = false := by decide
  simp [c1, c2, c3, c4]

/-- C8 (witness): a capability resolving with three spaces rejects with
the empty-response error at attempt 2 under custom options. -/
theorem C8_witness :
    (fun _ _ => GenOutcome.success "   ") 2 "q" = GenOutcome.success "   " ∧
    jsTrim "   " = "" ∧
    generateWithCompletionT (fun _ _ => GenOutcome.success "   ")
      (ResponseCompletionOptions.mk (some 5) none none) 2 "q" =
      (.error "Model returned empty response", [(2, "q")]) :=
  ⟨rfl, by decide,
    (C8_empty_response_fatal _ _ _ _ _ rfl (by decide)).1⟩

/-- C9: a generation call that does not settle within the timeout window
is rejected internally with `"Response timeout"`, which contains the
substring `"timeout"`; while `attempt < maxRetries` the controller
therefore retries with the shortened prompt instead of surfacing the
failure, and the `Timeout` error reaches the caller exactly when
`attempt ≥ maxRetries`. -/
theorem C9_internal_timeout_recovered (gen : Nat → String → GenOutcome)
    (o : ResponseCompletionOptions) (a : Nat) (p : String)
    (hgen : gen a p = .hang) :
    strIncludes "Response timeout" "timeout" = true ∧
    (a < jsOrNat o.maxRetries MAX_RETRIES →
      generateWithCompletionT gen o a p =
        ((generateWithCompletionT gen o (a + 1) (shorterOf p)).1,
          (a, p) :: (generateWithCompletionT gen o (a + 1) (shorterOf p)).2)) ∧
    (jsOrNat o.maxRetries MAX_RETRIES ≤ a →
      generateWithCompletionT gen o a p = (.error "Response timeout", [(a, p)])) := by
  have c1 : strIncludes "Response timeout" "Invalid JSON response" = false := by decide
  have c2 : strIncludes "Response timeout" "Ollama API rejected response" = false := by decide
  have c3 : strIncludes "Response timeout" "done\": false" = false := by decide
  have c4 : strIncludes "Response timeout" "timeout" = true := by decide
  refine ⟨c4, fun hlt => ?_, fun hge => ?_⟩
  · rw [generateWithCompletionT]
    simp [hgen, c1, c2, c3, c4, hlt]
  · rw [generateWithCompletionT]
    have hnlt : ¬ a < jsOrNat o.maxRetries MAX_RETRIES := by omega
    simp [hgen, c1, c2, c3, c4, hnlt]

/-- C9 (witness): a capability that never settles, default options,
attempt 1: the controller retries rather than failing, and at attempt 3
it surfaces the timeout error. -/
theorem C9_witness :
    ((fun _ _ => GenOutcome.hang) 1 "p" = GenOutcome.hang ∧
      (1 < jsOrNat (ResponseCompletionOptions.mk none none none).maxRetries MAX_RETRIES →
        generateWithCompletionT (fun _ _ => GenOutcome.hang)
            (ResponseCompletionOptions.mk none none none) 1 "p" =
          ((generateWithCompletionT (fun _ _ => GenOutcome.hang)
              (ResponseCompletionOptions.mk none none none) 2 (shorterOf "p")).1,
            (1, "p") :: (generateWithCompletionT (fun _ _ => GenOutcome.hang)
              (ResponseCompletionOptions.mk none none none) 2 (shorterOf "p")).2))) ∧
    (jsOrNat (ResponseCompletionOptions.mk none none none).maxRetries MAX_RETRIES ≤ 3 →
      generateWithCompletionT (fun _ _ => GenOutcome.hang)
          (ResponseCompletionOptions.mk none none none) 3 "p" =
        (.error "Response timeout", [(3, "p")])) :=
  ⟨⟨rfl, (C9_internal_timeout_recovered (fun _ _ => GenOutcome.hang) _ 1 "p" rfl).2.1⟩,
    (C9_internal_timeout_recovered (fun _ _ => GenOutcome.hang) _ 3 "p" rfl).2.2⟩

theorem gwcT_options_congr (gen : Nat → String → GenOutcome)
    (o1 o2 : ResponseCompletionOptions)
    (hm : jsOrNat o1.maxRetries MAX_RETRIES = jsOrNat o2.maxRetries MAX_RETRIES)
    (hc : jsOrStr o1.continuationPrompt CONTINUATION_PROMPT =
      jsOrStr o2.continuationPrompt CONTINUATION_PROMPT) :
    ∀ a p, generateWithCompletionT gen o1 a p = generateWithCompletionT gen o2 a p := by
  suffices H : ∀ n a p, jsOrNat o1.maxRetries MAX_RETRIES + 1 - a ≤ n →
      generateWithCompletionT gen o1 a p = generateWithCompletionT gen o2 a p by
    intro a p; exact H _ a p le_rfl
  intro n
  induction n with
  | zero =>
    intro a p h0
    have hge : ¬ a < jsOrNat o1.maxRetries MAX_RETRIES := by omega
    have hge2 : ¬ a < jsOrNat o2.maxRetries MAX_RETRIES := by rw [← hm]; omega
    conv_lhs => rw [generateWithCompletionT]
    conv_rhs => rw [generateWithCompletionT]
    cases hg : gen a p with
    | success t =>
      by_cases ht : jsTrim t = "" <;> simp [hg, ht, hge, hge2]
    | failure msg => simp [hg, hge, hge2]
    | hang => simp [hg, hge, hge2]
  | succ n ih =>
    intro a p hle
    by_cases hlt : a < jsOrNat o1.maxRetries MAX_RETRIES
    · have hlt2 : a < jsOrNat o2.maxRetries MAX_RETRIES := by rw [← hm]; exact hlt
      have ih' : ∀ p', generateWithCompletionT gen o1 (a + 1) p' =
          generateWithCompletionT gen o2 (a + 1) p' :=
        fun p' => ih (a + 1) p' (by omega)
      conv_lhs => rw [generateWithCompletionT]
      conv_rhs => rw [generateWithCompletionT]
      cases hg : gen a p with
      | success t =>
        by_cases ht : jsTrim t = "" <;> simp [hg, ht, hm, hc, ih', hlt, hlt2]
      | failure msg => simp [hg, hm, hc, ih', hlt, hlt2]
      | hang => simp [hg, hm, hc, ih', hlt, hlt2]
    · have hge : ¬ a < jsOrNat o1.maxRetries MAX_RETRIES := hlt
      have hge2 : ¬ a < jsOrNat o2.maxRetries MAX_RETRIES := by rw [← hm]; exact hlt
      conv_lhs => rw [generateWithCompletionT]
      conv_rhs => rw [generateWithCompletionT]
      cases hg : gen a p with
      | success t =>
        by_cases ht : jsTrim t = "" <;> simp [hg, ht, hge, hge2]
      | failure msg => simp [hg, hge, hge2]
      | hang => simp [hg, hge, hge2]

/-- C10: option merging uses JavaScript logical-or, so every falsy
explicit option is silently replaced by the default: `maxRetries: 0`
behaves exactly as `maxRetries: 3`, `timeout: 0` as `timeout: 600000`,
and `continuationPrompt: ""` as the default continuation instruction;
the merged retry and timeout values are never zero, so zero retries or a
zero timeout cannot be configured. -/
theorem C10_falsy_options_replaced :
    (∀ (gen : Nat → String → GenOutcome) (o : ResponseCompletionOptions) (a : Nat) (p : String),
      generateWithCompletionT gen { o with maxRetries := some 0 } a p =
        generateWithCompletionT gen { o with maxRetries := some 3 } a p ∧
      generateWithCompletionT gen { o with timeout := some 0 } a p =
        generateWithCompletionT gen { o with timeout := some RESPONSE_TIMEOUT } a p ∧
      generateWithCompletionT gen { o with continuationPrompt := some "" } a p =
        generateWithCompletionT gen { o with continuationPrompt := some CONTINUATION_PROMPT } a p) ∧
    jsOrNat (some 0) MAX_RETRIES = 3 ∧
    jsOrNat (some 0) RESPONSE_TIMEOUT = 600000 ∧
    jsOrStr (some "") CONTINUATION_PROMPT = CONTINUATION_PROMPT ∧
    (∀ o : ResponseCompletionOptions,
      jsOrNat o.maxRetries MAX_RETRIES ≠ 0 ∧ jsOrNat o.timeout RESPONSE_TIMEOUT ≠ 0) := by
  refine ⟨fun gen o a p => ⟨?_, ?_, ?_⟩, by decide, by decide, by decide, fun o => ⟨?_, ?_⟩⟩
  · exact gwcT_options_congr gen { o with maxRetries := some 0 }
      { o with maxRetries := some 3 }
      (show jsOrNat (some 0) MAX_RETRIES = jsOrNat (some 3) MAX_RETRIES by decide) rfl a p
  · exact gwcT_options_congr gen { o with timeout := some 0 }
      { o with timeout := some RESPONSE_TIMEOUT } rfl rfl a p
  · exact gwcT_options_congr gen { o with continuationPrompt := some "" }
      { o with continuationPrompt := some CONTINUATION_PROMPT } rfl
      (show jsOrStr (some "") CONTINUATION_PROMPT =
        jsOrStr (some CONTINUATION_PROMPT) CONTINUATION_PROMPT by decide) a p
  · cases o.maxRetries with
    | none => decide
    | some n =>
      simp only [jsOrNat]
      split
      · decide
      · assumption
  · cases o.timeout with
    | none => decide
    | some n =>
      simp only [jsOrNat]
      split
      · decide
      · assumption

/-- C1 (amended): for a generation capability that always rejects with a
message containing `"timeout"` and containing none of the substrings that
earlier recovery branches test first (`"Invalid JSON response"`,
`"Ollama API rejected response"`, `done": false`), the controller under
default options calls the capability exactly `maxRetries = 3` times, each
retry shortening the prompt (truncation to 500 characters plus the
direct-answer instruction when longer than 500, unchanged otherwise), and
finally rejects with the error of the last attempt. -/
theorem C1_timeout_retry_amended (gen : Nat → String → GenOutcome)
    (msg : Nat → String → String) (p : String)
    (hgen : ∀ a q, gen a q = .failure (msg a q))
    (ht : ∀ a q, strIncludes (msg a q) "timeout" = true)
    (hni : ∀ a q, strIncludes (msg a q) "Invalid JSON response" = false)
    (hno : ∀ a q, strIncludes (msg a q) "Ollama API rejected response" = false)
    (hnd : ∀ a q, strIncludes (msg a q) "done\": false" = false) :
    generateWithCompletionT gen (ResponseCompletionOptions.mk none none none) 1 p =
      (.error (msg 3 (shorterOf (shorterOf p))),
        [(1, p), (2, shorterOf p), (3, shorterOf (shorterOf p))]) := by
  have hmax : jsOrNat (ResponseCompletionOptions.mk none none none).maxRetries MAX_RETRIES = 3 := by
    decide
  have step : ∀ a q, a < 3 →
      generateWithCompletionT gen (ResponseCompletionOptions.mk none none none) a q =
        ((generateWithCompletionT gen (ResponseCompletionOptions.mk none none none)
            (a + 1) (shorterOf q)).1,
          (a, q) :: (generateWithCompletionT gen (ResponseCompletionOptions.mk none none none)
            (a + 1) (shorterOf q)).2) := by
    intro a q hlt
    rw [generateWithCompletionT]
    simp [hgen a q, ht a q, hni a q, hno a q, hnd a q, hmax, hlt]
  have last : ∀ q,
      generateWithCompletionT gen (ResponseCompletionOptions.mk none none none) 3 q =
        (.error (msg 3 q), [(3, q)]) := by
    intro q
    rw [generateWithCompletionT]
    simp [hgen 3 q, ht 3 q, hni 3 q, hno 3 q, hnd 3 q, hmax]
  rw [step 1 p (by omega), step 2 (shorterOf p) (by omega), last (shorterOf (shorterOf p))]

set_option maxRecDepth 4000 in
/-- C1 (counterexample): the capability that always rejects with
`done": false timeout` has `"timeout"` in its message, yet the controller
retries with the prompt unchanged — the `done": false` branch fires
first — although the claim requires each retry prompt to be the previous
prompt truncated to 500 characters with the direct-answer instruction
appended (the 501-character prompt here is long enough that truncation
would change it). -/
theorem C1_counterexample :
    strIncludes "done\": false timeout" "timeout" = true ∧
    shorterOf (String.mk (List.replicate 501 'a')) ≠ String.mk (List.replicate 501 'a') ∧
    generateWithCompletionT (fun _ _ => .failure "done\": false timeout")
        (ResponseCompletionOptions.mk none none none) 1 (String.mk (List.replicate 501 'a')) =
      (.error "done\": false timeout",
        [(1, String.mk (List.replicate 501 'a')), (2, String.mk (List.replicate 501 'a')),
          (3, String.mk (List.replicate 501 'a'))]) := by
  refine ⟨by decide, by decide, ?_⟩
  have hmax : jsOrNat (ResponseCompletionOptions.mk none none none).maxRetries MAX_RETRIES = 3 := by
    decide
  have c1 : strIncludes "done\": false timeout" "Invalid JSON response" = false := by decide
  have c2 : strIncludes "done\": false timeout" "Ollama API rejected response" = false := by decide
  have c3 : strIncludes "done\": false timeout" "done\": false" = true := by decide
  have c4 : strIncludes "done\": false timeout" "timeout" = true := by decide
  have step : ∀ (a : Nat) (q : String), a < 3 →
      generateWithCompletionT (fun _ _ => GenOutcome.failure "done\": false timeout")
          (ResponseCompletionOptions.mk none none none) a q =
        ((generateWithCompletionT (fun _ _ => GenOutcome.failure "done\": false timeout")
            (ResponseCompletionOptions.mk none none none) (a + 1) q).1,
          (a, q) :: (generateWithCompletionT (fun _ _ => GenOutcome.failure "done\": false timeout")
            (ResponseCompletionOptions.mk none none none) (a + 1) q).2) := by
    intro a q hlt
    rw [generateWithCompletionT]
    simp [c1, c2, c3, hmax, hlt]
  have last : ∀ q : String,
      generateWithCompletionT (fun _ _ => GenOutcome.failure "done\": false timeout")
          (ResponseCompletionOptions.mk none none none) 3 q =
        (.error "done\": false timeout", [(3, q)]) := by
    intro q
    rw [generateWithCompletionT]
    simp [c1, c2, c3, c4, hmax]
  rw [step 1 _ (by omega), step 2 _ (by omega), last]

/-- C1 (witness): the amended theorem applied to the constant rejection
`"request timeout"` and the short prompt `"hi"`, which the shortening
leaves unchanged. -/
theorem C1_witness :
    generateWithCompletionT (fun _ _ => GenOutcome.failure "request timeout")
        (ResponseCompletionOptions.mk none none none) 1 "hi" =
      (.error "request timeout", [(1, "hi"), (2, "hi"), (3, "hi")]) := by
  have h := C1_timeout_retry_amended (fun _ _ => GenOutcome.failure "request timeout")
    (fun _ _ => "request timeout") "hi" (fun _ _ => rfl)
    (fun _ _ => (by decide : strIncludes "request timeout" "timeout" = true))
    (fun _ _ => (by decide : strIncludes "request timeout" "Invalid JSON response" = false))
    (fun _ _ => (by decide : strIncludes "request timeout" "Ollama API rejected response" = false))
    (fun _ _ => (by decide : strIncludes "request timeout" "done\": false" = false))
  have hs : shorterOf "hi" = "hi" := by decide
  simpa [hs] using h

/-! ### The global regex-replace driver

`replaceScanF` reproduces the semantics of `String.prototype.replace`
with a global regex whose matches always consume at least one character:
at each position try the matcher; on a match emit the replacement and
resume after the consumed segment, otherwise emit the character and
advance by one.  A matcher returns the replacement text and the number of
consumed characters.  Fuel `l.length + 1` is exact because the scan
advances by at least one character per step. -/

def replaceScanF (m : List Char → Option (List Char × Nat)) : Nat → List Char → List Char
  | 0, l => l
  | _, [] => []
  | fuel + 1, c :: cs =>
    match m (c :: cs) with
    | some (repl, n) => repl ++ replaceScanF m fuel (cs.drop (n - 1))
    | none => c :: replaceScanF m fuel cs

/-- Global replace (JS `replace` with a `g` regex). -/
def replaceScan (m : List Char → Option (List Char × Nat)) (l : List Char) : List Char :=
  replaceScanF m (l.length + 1) l

/-- Single replace (JS `replace` with a flag-free regex): only the first
match is replaced. -/
def replaceFirst (m : List Char → Option (List Char × Nat)) : List Char → List Char
  | [] => []
  | c :: cs =>
    match m (c :: cs) with
    | some (repl, n) => repl ++ cs.drop (n - 1)
    | none => c :: replaceFirst m cs

/-! ### Matchers for the `cleanJsonText` replacement chain -/

/-- Smart-quote normalization: `[“”] → "` and `[‘’] → '` (the source's
first two replaces, combined since both are character-wise). -/
def smartQuotes (l : List Char) : List Char :=
  (l.map fun c => if c = Char.ofNat 8220 || c = Char.ofNat 8221 then '"' else c).map
    fun c => if c = Char.ofNat 8216 || c = Char.ofNat 8217 then apos else c

/-- Matcher for `/,(\s*[}\]])/g → '$1'` (trailing commas before a closing
brace or bracket). -/
def mTrailingComma : List Char → Option (List Char × Nat)
  | ',' :: rest =>
    let ws := rest.takeWhile isJsWs
    match rest.dropWhile isJsWs with
    | d :: _ =>
      if d = rbrace || d = ']' then some (ws ++ [d], 1 + ws.length + 1) else none
    | [] => none
  | _ => none

/-- Is `c` in the class `[^",}\]]`? -/
def inCls1 (c : Char) : Bool := !(c = '"' || c = ',' || c = rbrace || c = ']')

/-- Matcher for `/: "([^"]*)"([^",}\]]*)"([^",}\]]*)",/g` with
replacement `': "$1\"$2\"$3",'` (re-escape embedded quotes).  The
character classes exclude their closing literals, so the greedy runs are
maximal and the match is deterministic. -/
def mQuoteFix : List Char → Option (List Char × Nat)
  | ':' :: ' ' :: '"' :: rest =>
    let g1 := rest.takeWhile (fun c => !(c = '"'))
    match rest.dropWhile (fun c => !(c = '"')) with
    | '"' :: r2 =>
      let g2 := r2.takeWhile inCls1
      match r2.dropWhile inCls1 with
      | '"' :: r4 =>
        let g3 := r4.takeWhile inCls1
        match r4.dropWhile inCls1 with
        | '"' :: ',' :: _ =>
          some ([':', ' ', '"'] ++ g1 ++ ['\\', '"'] ++ g2 ++ ['\\', '"'] ++ g3 ++ ['"', ','],
            3 + g1.length + 1 + g2.length + 1 + g3.length + 2)
        | _ => none
      | _ => none
    | _ => none
  | _ => none

/-- Matcher for `/\/\/[^\n]*/g → ''` (line comments). -/
def mLineComment : List Char → Option (List Char × Nat)
  | '/' :: '/' :: rest => some ([], 2 + (rest.takeWhile (fun c => !(c = '\n'))).length)
  | _ => none

/-- Remainder after the first `*/`, if any. -/
def afterBlockClose : List Char → Option (List Char)
  | '*' :: '/' :: t => some t
  | _ :: t => afterBlockClose t
  | [] => none

/-- Matcher for `/\/\*[\s\S]*?\*\//g → ''` (block comments; the lazy
quantifier stops at the first `*/`, and an unterminated comment does not
match). -/
def mBlockComment : List Char → Option (List Char × Nat)
  | '/' :: '*' :: rest =>
    match afterBlockClose rest with
    | some t => some ([], 2 + (rest.length - t.length))
    | none => none
  | _ => none

/-- Literal-prefix matcher: consume `pat`, emit `repl`. -/
def mLit (pat repl : List Char) (l : List Char) : Option (List Char × Nat) :=
  if pat.isPrefixOf l then some (repl, pat.length) else none

/-- Matcher for the opening markdown fence ```` ```json\s* ```` (applied
once, not globally). -/
def mMdOpen (l : List Char) : Option (List Char × Nat) :=
  if ([btick, btick, btick, 'j', 's', 'o', 'n']).isPrefixOf l then
    let rest := l.drop 7
    some ([], 7 + (rest.takeWhile isJsWs).length)
  else none

/-- Matcher for the closing markdown fence ```` ```\s*$ ```` (applied
once; `$` anchors at the very end of the string). -/
def mMdClose (l : List Char) : Option (List Char × Nat) :=
  if ([btick, btick, btick]).isPrefixOf l then
    let rest := l.drop 3
    if rest.dropWhile isJsWs = [] then some ([], l.length) else none
  else none

/-- Matcher for `/(\w+):/g → '"$1":'` (quote unquoted keys): a maximal
`\w`-run immediately followed by `:`. -/
def mQuoteKeys : List Char → Option (List Char × Nat)
  | c :: cs =>
    if isWordChar c then
      let run := c :: cs.takeWhile isWordChar
      match cs.dropWhile isWordChar with
      | ':' :: _ => some ('"' :: run ++ ['"', ':'], run.length + 1)
      | _ => none
    else none
  | [] => none

/-- First character of an identifier in `/: ([a-zA-Z_][a-zA-Z0-9_]*)/g`. -/
def isIdentStart (c : Char) : Bool := c.isAlpha || c = '_'

/-- Later characters of that identifier. -/
def isIdentChar (c : Char) : Bool := c.isAlpha || c.isDigit || c = '_'

/-- Matcher for `/: ([a-zA-Z_][a-zA-Z0-9_]*)/g → ': "$1"'` (quote
unquoted single-word values after a colon and one space). -/
def mQuoteValues : List Char → Option (List Char × Nat)
  | ':' :: ' ' :: c :: cs =>
    if isIdentStart c then
      let run := c :: cs.takeWhile isIdentChar
      some ([':', ' ', '"'] ++ run ++ ['"'], 2 + run.length)
    else none
  | _ => none

/-- Matcher for `/\}\s*\{/g → '},{'` (missing comma between objects). -/
def mBraceComma : List Char → Option (List Char × Nat)
  | c :: rest =>
    if c = rbrace then
      let ws := rest.takeWhile isJsWs
      match rest.dropWhile isJsWs with
      | d :: _ => if d = lbrace then some ([rbrace, ',', lbrace], 1 + ws.length + 1) else none
      | [] => none
    else none
  | [] => none

/-- Matcher for `/"\s+"([^",}\]]+)"/g → '", "$1"'` (missing comma between
adjacent strings). -/
def mStrSep : List Char → Option (List Char × Nat)
  | '"' :: rest =>
    let ws := rest.takeWhile isJsWs
    if ws.isEmpty then none
    else
      match rest.dropWhile isJsWs with
      | '"' :: r2 =>
        let g := r2.takeWhile inCls1
        if g.isEmpty then none
        else
          match r2.dropWhile inCls1 with
          | '"' :: _ => some (['"', ',', ' ', '"'] ++ g ++ ['"'], 1 + ws.length + 1 + g.length + 1)
          | _ => none
      | _ => none
  | _ => none

/-- Matcher for `/([^,\s])\s*\]/g → '$1]'` (drop whitespace before a
closing bracket). -/
def mWsBracket : List Char → Option (List Char × Nat)
  | c :: rest =>
    if c = ',' || isJsWs c then none
    else
      let ws := rest.takeWhile isJsWs
      match rest.dropWhile isJsWs with
      | ']' :: _ => some ([c, ']'], 1 + ws.length + 1)
      | _ => none
  | [] => none

/-- Is `c` in the class `[^,}]`? -/
def inCls2 (c : Char) : Bool := !(c = ',' || c = rbrace)

/-- Matcher for `/\{\s*"([^"]*)":\s*"([^"]*)"([^,}]*)\s*\}/g` with
replacement `'{"$1": "$2"}'` (normalize an incomplete object, discarding
whatever trails the second string).  After the maximal `[^,}]`-run the
next character must be `}`: shrinking the run cannot help, because the
literal `}` would then fall on a run character, which is never `}`. -/
def mObjTrunc : List Char → Option (List Char × Nat)
  | c :: rest =>
    if c = lbrace then
      let ws1 := rest.takeWhile isJsWs
      match rest.dropWhile isJsWs with
      | '"' :: r1 =>
        let g1 := r1.takeWhile (fun c => !(c = '"'))
        match r1.dropWhile (fun c => !(c = '"')) with
        | '"' :: ':' :: r2 =>
          let ws2 := r2.takeWhile isJsWs
          match r2.dropWhile isJsWs with
          | '"' :: r3 =>
            let g2 := r3.takeWhile (fun c => !(c = '"'))
            match r3.dropWhile (fun c => !(c = '"')) with
            | '"' :: r4 =>
              let g3 := r4.takeWhile inCls2
              match r4.dropWhile inCls2 with
              | d :: _ =>
                if d = rbrace then
                  some ([lbrace, '"'] ++ g1 ++ ['"', ':', ' ', '"'] ++ g2 ++ ['"', rbrace],
                    1 + ws1.length + 1 + g1.length + 2 + ws2.length + 1 + g2.length + 1 +
                      g3.length + 1)
                else none
              | [] => none
            | _ => none
          | _ => none
        | _ => none
      | _ => none
    else none
  | [] => none

/-- Search for the last position in a quote-free run at which an ASCII
letter is immediately followed by `...`; returns the prefix through that
letter and the remainder after the three dots. -/
def findDots : List Char → Option (List Char × List Char)
  | [] => none
  | c :: cs =>
    match findDots cs with
    | some (g, rest) => some (c :: g, rest)
    | none =>
      if c.isAlpha then
        match cs with
        | '.' :: '.' :: '.' :: t => some ([c], t)
        | _ => none
      else none

/-- Matcher for `/:\s*"([^"]*[a-zA-Z])\.\.\./g → ': "$1"'` (close a
truncated string that trails off in an ellipsis; the greedy group picks
the last letter-before-dots position). -/
def mEllipsis : List Char → Option (List Char × Nat)
  | ':' :: rest =>
    let ws := rest.takeWhile isJsWs
    match rest.dropWhile isJsWs with
    | '"' :: r2 =>
      let run := r2.takeWhile (fun c => !(c = '"'))
      match findDots run with
      | some (g1, restRun) =>
        some ([':', ' ', '"'] ++ g1 ++ ['"'],
          1 + ws.length + 1 + (run.length - restRun.length))
      | none => none
    | _ => none
  | _ => none

/-- Matcher for `/:\s*"([^"]*)\s*$/gm → ': "$1"'` (close a string cut off
at a line end).  With the `m` flag `$` matches before a `\n` or at the
end of input; backtracking of the greedy group selects the whole
remaining run when the string runs to the end of input, and the prefix
before the last `\n` otherwise. -/
def mLineTrunc : List Char → Option (List Char × Nat)
  | ':' :: rest =>
    let ws := rest.takeWhile isJsWs
    match rest.dropWhile isJsWs with
    | '"' :: r2 =>
      let run := r2.takeWhile (fun c => !(c = '"'))
      let after := r2.dropWhile (fun c => !(c = '"'))
      if after.isEmpty then
        some ([':', ' ', '"'] ++ run ++ ['"'], 1 + ws.length + 1 + run.length)
      else
        if run.contains '\n' then
          let g1 := (run.reverse.dropWhile (fun c => !(c = '\n'))).reverse.dropLast
          some ([':', ' ', '"'] ++ g1 ++ ['"'], 1 + ws.length + 1 + g1.length)
        else none
    | _ => none
  | _ => none

/-- Matcher for `/": "([^"]*)"([^",}\]]*)"([^",}\]]*)",/g` with
replacement `'": "$1\"$2\"$3",'` (the array-repair variant of
`mQuoteFix`, anchored behind a closing key quote). -/
def mQuoteFix2 : List Char → Option (List Char × Nat)
  | '"' :: rest =>
    match mQuoteFix rest with
    | some (repl, n) => some ('"' :: repl, n + 1)
    | none => none
  | _ => none

/-- Matcher for `/,+/g → ','` (collapse runs of commas). -/
def mMultiComma : List Char → Option (List Char × Nat)
  | ',' :: rest => some ([','], 1 + (rest.takeWhile (fun c => c = ',')).length)
  | _ => none

/-! ### `fixArrayElementSeparation` -/

/-- Count of a character in a list (JS `(s.match(/x/g) || []).length`). -/
def countChar (c : Char) (l : List Char) : Nat := l.count c

/-- Fixes 1 to 6 of `fixArrayElementSeparation`, in source order. -/
def fix1to6 (l : List Char) : List Char :=
  let l := replaceScan mBraceComma l
  let l := replaceScan mStrSep l
  let l := replaceScan mWsBracket l
  let l := replaceScan mObjTrunc l
  let l := replaceScan mEllipsis l
  let l := replaceScan mLineTrunc l
  replaceScan mQuoteFix2 l

/-- Fix 7: when the candidate contains `{` but no `}` at all, append one
closing brace per unmatched opening brace. -/
def fix7 (l : List Char) : List Char :=
  if listIncl [lbrace] l ∧ ¬ listIncl [rbrace] l then
    let openBraces := countChar lbrace l
    let closeBraces := countChar rbrace l
    if closeBraces < openBraces then l ++ List.replicate (openBraces - closeBraces) rbrace
    else l
  else l

/-- Fix 8: collapse duplicate commas, then strip commas before closing
brackets. -/
def fix8 (l : List Char) : List Char :=
  replaceScan mTrailingComma (replaceScan mMultiComma l)

/-- `fixArrayElementSeparation` from the source (its `try`/`catch` cannot
fire in this pure embedding, as no fix throws). -/
def fixArrayElementSeparation (l : List Char) : List Char :=
  fix8 (fix7 (fix1to6 l))

/-! ### `fixEscapeCharacterIssues` -/

/-- Is `c` outside `[^"\\\/bfnrtux]` (i.e. one of the excluded
characters)? -/
def escExcl1 (c : Char) : Bool :=
  c = '"' || c = '\\' || c = '/' || c = 'b' || c = 'f' || c = 'n' || c = 'r' || c = 't' ||
    c = 'u' || c = 'x'

/-- Matcher for `/\\[^"\\\/bfnrtux]/g` with the source's callback: double
the backslash when the following character is alphanumeric, otherwise
leave the match unchanged. -/
def mBadEscape : List Char → Option (List Char × Nat)
  | '\\' :: d :: _ =>
    if escExcl1 d then none
    else if d.isAlpha || d.isDigit then some (['\\', '\\', d], 2)
    else some (['\\', d], 2)
  | _ => none

/-- Is `c` one of the characters excluded by `[^"\\\/bfnrtu]` (note: no
`x` here, unlike `escExcl1`)? -/
def escExcl2 (c : Char) : Bool :=
  c = '"' || c = '\\' || c = '/' || c = 'b' || c = 'f' || c = 'n' || c = 'r' || c = 't' ||
    c = 'u'

/-- Matcher for `/\\(?=[^"\\\/bfnrtu])/g → '\\\\'`: the lookahead is not
consumed, so only the backslash itself is replaced. -/
def mLoneBackslash : List Char → Option (List Char × Nat)
  | '\\' :: d :: _ => if escExcl2 d then none else some (['\\', '\\'], 1)
  | _ => none

/-- Matcher for `/\\+$/g → ''` (strip a trailing backslash run). -/
def mTrailBackslash (l : List Char) : Option (List Char × Nat) :=
  match l with
  | '\\' :: _ =>
    if l.dropWhile (fun c => c = '\\') = [] then some ([], l.length) else none
  | _ => none

/-- Matcher for `/\\+"/g → '\\"'` (collapse backslashes before a closing
quote to a single escape). -/
def mBackslashQuote (l : List Char) : Option (List Char × Nat) :=
  match l with
  | '\\' :: _ =>
    let run := l.takeWhile (fun c => c = '\\')
    match l.dropWhile (fun c => c = '\\') with
    | '"' :: _ => some (['\\', '"'], run.length + 1)
    | _ => none
  | _ => none

/-- Hexadecimal digit test for the unicode-escape check. -/
def isHexDig (c : Char) : Bool :=
  c.isDigit || ('a' ≤ c && c ≤ 'f') || ('A' ≤ c && c ≤ 'F')

/-- Matcher for `/\\u(?![0-9a-fA-F]{4})/g → '\\\\u'` (double the
backslash of an invalid unicode escape). -/
def mBadUnicode : List Char → Option (List Char × Nat)
  | '\\' :: 'u' :: rest =>
    match rest with
    | a :: b :: c :: d :: _ =>
      if isHexDig a && isHexDig b && isHexDig c && isHexDig d then none
      else some (['\\', '\\', 'u'], 2)
    | _ => some (['\\', '\\', 'u'], 2)
  | _ => none

/-- `fixEscapeCharacterIssues` from the source: the five replaces in
order. -/
def fixEscapeCharacterIssues (l : List Char) : List Char :=
  let l := replaceScan mBadEscape l
  let l := replaceScan mLoneBackslash l
  let l := replaceScan mTrailBackslash l
  let l := replaceScan mBackslashQuote l
  replaceScan mBadUnicode l

/-! ### Single-quote conversion and multi-word value quoting -/

/-- Matcher for `/'([A-Za-z0-9_]+)'\s*:/g → '"$1":'` (single-quoted keys
to double-quoted). -/
def mSqKey : List Char → Option (List Char × Nat)
  | c :: rest =>
    if c = apos then
      let run := rest.takeWhile isIdentChar
      if run.isEmpty then none
      else
        match rest.dropWhile isIdentChar with
        | d :: r2 =>
          if d = apos then
            let ws := r2.takeWhile isJsWs
            match r2.dropWhile isJsWs with
            | ':' :: _ => some ('"' :: run ++ ['"', ':'], 1 + run.length + 1 + ws.length + 1)
            | _ => none
          else none
        | [] => none
    else none
  | [] => none

/-- Matcher for `/:\s*'([^']*)'/g → ': "$1"'` (single-quoted values to
double-quoted). -/
def mSqVal : List Char → Option (List Char × Nat)
  | ':' :: rest =>
    let ws := rest.takeWhile isJsWs
    match rest.dropWhile isJsWs with
    | q :: r2 =>
      if q = apos then
        let run := r2.takeWhile (fun c => !(c = apos))
        match r2.dropWhile (fun c => !(c = apos)) with
        | q2 :: _ =>
          if q2 = apos then
            some ([':', ' ', '"'] ++ run ++ ['"'], 1 + ws.length + 1 + run.length + 1)
          else none
        | [] => none
      else none
    | [] => none
  | _ => none

/-- Characters of the lazy-group class `[A-Za-z0-9_\-\/.\s]` of the
multi-word value regex. -/
def kwClass (c : Char) : Bool :=
  c.isAlpha || c.isDigit || c = '_' || c = '-' || c = '/' || c = '.' || isJsWs c

/-- The lookahead `(?=\s*[,}\]])`: skipping whitespace, the next
character is a comma or a closing brace or bracket. -/
def lookDelim (l : List Char) : Bool :=
  match l.dropWhile isJsWs with
  | c :: _ => c = ',' || c = rbrace || c = ']'
  | [] => false

/-- Lazy extension of the captured group `[A-Za-z][A-Za-z0-9_\-\/.\s]*?`:
grow one class character at a time, stopping as soon as the delimiter
lookahead holds. -/
def lazyGrow (grp : List Char) : List Char → Option (List Char × List Char)
  | [] => if lookDelim [] then some (grp, []) else none
  | d :: t =>
    if lookDelim (d :: t) then some (grp, d :: t)
    else if kwClass d then lazyGrow (grp ++ [d]) t else none

/-- Does the text start with this word literal followed by a word
boundary (`true\b` etc.; the regex has no `i` flag here)? -/
def startsLitB (w : List Char) (l : List Char) : Bool :=
  w.isPrefixOf l &&
    (match l.drop w.length with
     | c :: _ => !isWordChar c
     | [] => true)

/-- The bare-value number test `/^-?\d+(?:\.\d+)?$/` of the replacement
callback. -/
def isNumLit (l : List Char) : Bool :=
  let l1 := match l with
    | '-' :: t => t
    | t => t
  let digits := l1.takeWhile Char.isDigit
  if digits.isEmpty then false
  else
    match l1.dropWhile Char.isDigit with
    | [] => true
    | '.' :: t2 =>
      let d2 := t2.takeWhile Char.isDigit
      !d2.isEmpty && t2.dropWhile Char.isDigit = []
    | _ => false

/-- Escape embedded double quotes (`val.replace(/"/g, '\\"')`). -/
def escQ (l : List Char) : List Char :=
  l.foldr (fun c acc => if c = '"' then '\\' :: '"' :: acc else c :: acc) []

/-- Matcher for the multi-word bare-value quoting step
`/:\s*(?!true\b|false\b|null\b)([A-Za-z][A-Za-z0-9_\-\/.\s]*?)(?=\s*[,}\]])/g`
with the source's replacement callback. -/
def mMultiWord : List Char → Option (List Char × Nat)
  | ':' :: rest =>
    let r := rest.dropWhile isJsWs
    if startsLitB "true".data r || startsLitB "false".data r || startsLitB "null".data r then
      none
    else
      match r with
      | c :: t =>
        if c.isAlpha then
          match lazyGrow [c] t with
          | some (grp, after) =>
            let consumed := 1 + rest.length - after.length
            let val := trimL grp
            if val.isEmpty then some ([':', ' ', '"', '"'], consumed)
            else if (match val with
                | d :: _ => d = '"' || d = apos || d = '[' || d = lbrace
                | [] => false) || isNumLit val then
              some ([':', ' '] ++ val, consumed)
            else some ([':', ' ', '"'] ++ escQ val ++ ['"'], consumed)
          | none => none
        else none
      | [] => none
  | _ => none

/-! ### `cleanJsonText` -/

/-- The first replacement chain of `cleanJsonText`, in source order:
smart quotes, trailing commas, embedded-quote re-escape, comments,
markdown fences, key quoting, single-word value quoting, and restoring
quoted `true`/`false`/`null` literals. -/
def cleanChain (l : List Char) : List Char :=
  let l := smartQuotes l
  let l := replaceScan mTrailingComma l
  let l := replaceScan mQuoteFix l
  let l := replaceScan mLineComment l
  let l := replaceScan mBlockComment l
  let l := replaceFirst mMdOpen l
  let l := replaceFirst mMdClose l
  let l := replaceScan mQuoteKeys l
  let l := replaceScan mQuoteValues l
  let l := replaceScan (mLit ": \"true\"".data ": true".data) l
  let l := replaceScan (mLit ": \"false\"".data ": false".data) l
  replaceScan (mLit ": \"null\"".data ": null".data) l

/-- `cleanJsonText` from the source: the replacement chain, array-element
repair, escape repair, single-quote conversion, multi-word bare-value
quoting, and a final trim. -/
def cleanJsonText (s : String) : String :=
  let l := cleanChain s.data
  let l := fixArrayElementSeparation l
  let l := fixEscapeCharacterIssues l
  let l := replaceScan mSqKey l
  let l := replaceScan mSqVal l
  let l := replaceScan mMultiWord l
  String.mk (trimL l)

/-! ### A model of strict `JSON.parse`

Numbers are kept as their lexemes (no claim under study compares
numerically distinct lexemes), and `\uXXXX` escapes are decoded with
`Char.ofNat` (surrogate halves, which Lean's `Char` cannot hold, do not
occur in the inputs under study). -/

inductive JsonValue where
  | null
  | bool (b : Bool)
  | num (lexeme : String)
  | str (s : String)
  | arr (elems : List JsonValue)
  | obj (members : List (String × JsonValue))
deriving Repr

/-- Strict JSON whitespace (`JSON.parse` accepts exactly these four). -/
def jsonWs (c : Char) : Bool := c = ' ' || c = '\t' || c = '\n' || c = '\r'

/-- Hex digit value for unicode escapes. -/
def hexVal (c : Char) : Option Nat :=
  if c.isDigit then some (c.toNat - 48)
  else if 'a' ≤ c && c ≤ 'f' then some (c.toNat - 87)
  else if 'A' ≤ c && c ≤ 'F' then some (c.toNat - 55)
  else none

/-- Lex a JSON string body (after the opening quote), returning the
decoded content and the remainder after the closing quote. -/
def lexStr (fuel : Nat) (l : List Char) : Option (List Char × List Char) :=
  match fuel, l with
  | 0, _ => none
  | _, [] => none
  | fuel + 1, c :: cs =>
    if c = '"' then some ([], cs)
    else if c = '\\' then
      match cs with
      | [] => none
      | e :: cs' =>
        if e = '"' || e = '\\' || e = '/' then
          (lexStr fuel cs').map fun (body, rest) => (e :: body, rest)
        else if e = 'b' then
          (lexStr fuel cs').map fun (body, rest) => (Char.ofNat 8 :: body, rest)
        else if e = 'f' then
          (lexStr fuel cs').map fun (body, rest) => (Char.ofNat 12 :: body, rest)
        else if e = 'n' then
          (lexStr fuel cs').map fun (body, rest) => ('\n' :: body, rest)
        else if e = 'r' then
          (lexStr fuel cs').map fun (body, rest) => ('\r' :: body, rest)
        else if e = 't' then
          (lexStr fuel cs').map fun (body, rest) => ('\t' :: body, rest)
        else if e = 'u' then
          match cs' with
          | h1 :: h2 :: h3 :: h4 :: cs'' =>
            match hexVal h1, hexVal h2, hexVal h3, hexVal h4 with
            | some v1, some v2, some v3, some v4 =>
              (lexStr fuel cs'').map fun (body, rest) =>
                (Char.ofNat (((v1 * 16 + v2) * 16 + v3) * 16 + v4) :: body, rest)
            | _, _, _, _ => none
          | _ => none
        else none
    else if c.toNat < 32 then none
    else (lexStr fuel cs).map fun (body, rest) => (c :: body, rest)

/-- Lex a JSON number lexeme (`-?(0|[1-9][0-9]*)(\.[0-9]+)?([eE][+-]?[0-9]+)?`),
returning the lexeme and the remainder. -/
def lexNum (l : List Char) : Option (List Char × List Char) :=
  let (sign, l1) :=
    match l with
    | '-' :: t => (['-'], t)
    | t => (([] : List Char), t)
  match l1 with
  | [] => none
  | d :: _ =>
    if !d.isDigit then none
    else
      let intPart :=
        if d = '0' then [d]
        else l1.takeWhile Char.isDigit
      let l2 := l1.drop intPart.length
      let (fracPart, l3) :=
        match l2 with
        | '.' :: t =>
          let ds := t.takeWhile Char.isDigit
          if ds.isEmpty then (([] : List Char), l2)
          else ('.' :: ds, t.drop ds.length)
        | _ => (([] : List Char), l2)
      if (match l2 with | '.' :: t => (t.takeWhile Char.isDigit).isEmpty | _ => false) then none
      else
        let (expPart, l4) :=
          match l3 with
          | e :: t =>
            if e = 'e' || e = 'E' then
              let (es, t1) :=
                match t with
                | s :: t' => if s = '+' || s = '-' then ([e, s], t') else ([e], t)
                | [] => ([e], t)
              let ds := t1.takeWhile Char.isDigit
              if ds.isEmpty then (([] : List Char), l3, false)
              else (es ++ ds, t1.drop ds.length, true)
            else (([] : List Char), l3, true)
          | [] => (([] : List Char), l3, true)
        match expPart, l4 with
        | _, (l4r, ok) => if ok then some (sign ++ intPart ++ fracPart ++ expPart, l4r) else none

/-- Work item of the JSON parser: a value, the members of an object
(positioned at a key), or the elements of an array (positioned at a
value).  A single fueled function replaces the natural mutual recursion
so that it stays structurally recursive; every recursive call follows the
consumption of at least one character, so fuel `input length + 1` is
exact. -/
inductive PTask where
  | val (l : List Char)
  | members (l : List Char) (acc : List (String × JsonValue))
  | elems (l : List Char) (acc : List JsonValue)

/-- Parse one work item. -/
def parseJ : Nat → PTask → Option (JsonValue × List Char)
  | 0, _ => none
  | fuel + 1, .val l =>
    match l.dropWhile jsonWs with
    | [] => none
    | c :: cs =>
      if c = '"' then
        (lexStr (cs.length + 1) cs).map fun (body, rest) => (.str (String.mk body), rest)
      else if c = 't' then
        match cs with
        | 'r' :: 'u' :: 'e' :: rest => some (.bool true, rest)
        | _ => none
      else if c = 'f' then
        match cs with
        | 'a' :: 'l' :: 's' :: 'e' :: rest => some (.bool false, rest)
        | _ => none
      else if c = 'n' then
        match cs with
        | 'u' :: 'l' :: 'l' :: rest => some (.null, rest)
        | _ => none
      else if c = '-' || c.isDigit then
        (lexNum (c :: cs)).map fun (lex, rest) => (.num (String.mk lex), rest)
      else if c = lbrace then
        match cs.dropWhile jsonWs with
        | d :: rest =>
          if d = rbrace then some (.obj [], rest)
          else parseJ fuel (.members (cs.dropWhile jsonWs) [])
        | [] => none
      else if c = '[' then
        match cs.dropWhile jsonWs with
        | d :: rest =>
          if d = ']' then some (.arr [], rest)
          else parseJ fuel (.elems (cs.dropWhile jsonWs) [])
        | [] => none
      else none
  | fuel + 1, .members l acc =>
    match l with
    | '"' :: cs =>
      match lexStr (cs.length + 1) cs with
      | some (key, rest) =>
        match rest.dropWhile jsonWs with
        | ':' :: rest2 =>
          match parseJ fuel (.val rest2) with
          | some (v, rest3) =>
            match rest3.dropWhile jsonWs with
            | ',' :: rest4 =>
              parseJ fuel (.members (rest4.dropWhile jsonWs) (acc ++ [(String.mk key, v)]))
            | d :: rest4 =>
              if d = rbrace then some (.obj (acc ++ [(String.mk key, v)]), rest4) else none
            | [] => none
          | none => none
        | _ => none
      | none => none
    | _ => none
  | fuel + 1, .elems l acc =>
    match parseJ fuel (.val l) with
    | some (v, rest) =>
      match rest.dropWhile jsonWs with
      | ',' :: rest2 => parseJ fuel (.elems rest2 (acc ++ [v]))
      | ']' :: rest2 => some (.arr (acc ++ [v]), rest2)
      | _ => none
    | none => none

/-- `JSON.parse`: a full-input strict parse, `none` on any syntax
error. -/
def jsonParse (s : String) : Option JsonValue :=
  match parseJ (s.data.length + 1) (.val s.data) with
  | some (v, rest) => if rest.dropWhile jsonWs = [] then some v else none
  | none => none

/-! ### `parseJsonWithResilience` -/

/-- The greedy match of `/\{[\s\S]*\}/`: from the first `{` through the
last `}`, when the latter follows the former. -/
def braceSpan (l : List Char) : Option (List Char) :=
  let t := l.dropWhile (fun c => !(c = lbrace))
  match t with
  | [] => none
  | _ :: _ =>
    let r := (t.reverse.dropWhile (fun c => !(c = rbrace))).reverse
    if 2 ≤ r.length then some r else none

/-- The greedy match of `/\[[\s\S]*\]/`. -/
def bracketSpan (l : List Char) : Option (List Char) :=
  let t := l.dropWhile (fun c => !(c = '['))
  match t with
  | [] => none
  | _ :: _ =>
    let r := (t.reverse.dropWhile (fun c => !(c = ']'))).reverse
    if 2 ≤ r.length then some r else none

/-- The suffix after the last occurrence of `pat` (JS
`substring(lastIndexOf(pat) + pat.length)`), `none` when `pat` does not
occur. -/
def afterLast (pat : List Char) : List Char → Option (List Char)
  | [] => none
  | c :: cs =>
    match afterLast pat cs with
    | some r => some r
    | none => if pat.isPrefixOf (c :: cs) then some ((c :: cs).drop pat.length) else none

/-- The array fallback of `parseJsonWithResilience`: locate a `[...]`
span, clean it, parse it, and wrap a non-array result as a one-element
array. -/
def arrayFallback (cleanText : String) : Except String JsonValue :=
  match bracketSpan cleanText.data with
  | some span =>
    match jsonParse (cleanJsonText (String.mk span)) with
    | some v =>
      .ok (match v with
        | .arr xs => .arr xs
        | other => .arr [other])
    | none => .error "Invalid JSON after all extraction attempts"
  | none => .error "Invalid JSON after all extraction attempts"

/-- `parseJsonWithResilience` from the source: strict parse, then
think-block stripping, then the cleaned `{...}` span, then the cleaned
`[...]` span, else the final decode error. -/
def parseJsonWithResilience (text : String) : Except String JsonValue :=
  match jsonParse text with
  | some v => .ok v
  | none =>
    let cleanText :=
      if strIncludes text "<think>" ∧ strIncludes text "</think>" then
        match afterLast "</think>".data text.data with
        | some r => jsTrim (String.mk r)
        | none => text
      else text
    match braceSpan cleanText.data with
    | some span =>
      match jsonParse (cleanJsonText (String.mk span)) with
      | some v => .ok v
      | none => arrayFallback cleanText
    | none => arrayFallback cleanText

/-! ### Claim theorems about the Resilient Decoder -/

set_option maxRecDepth 8000 in
/-- C2 (amended): `decodeResilientJSON('{"a": create patterns now}')`
returns `{a: "create"}` rather than `{a: "create patterns now"}`:
the single-word value-quoting replace fires first and quotes only
`create`, and array-repair Fix 4 then rewrites the object to its first
key/value pair, deleting the trailing ` patterns now`. -/
theorem C2_bare_multiword_value :
    parseJsonWithResilience "\x7b\"a\": create patterns now\x7d" =
      .ok (.obj [("a", .str "create")]) ∧
    cleanJsonText "\x7b\"a\": create patterns now\x7d" = "\x7b\"a\": \"create\"\x7d" :=
  ⟨rfl, rfl⟩

set_option maxRecDepth 8000 in
/-- C2 (counterexample): the decoder does not return
`{a: "create patterns now"}` on that input. -/
theorem C2_counterexample :
    ¬ parseJsonWithResilience "\x7b\"a\": create patterns now\x7d" =
      .ok (.obj [("a", .str "create patterns now")]) := by
  intro h
  rw [show parseJsonWithResilience "\x7b\"a\": create patterns now\x7d" =
    Except.ok (JsonValue.obj [("a", JsonValue.str "create")]) from rfl] at h
  simp at h

/-- C3 (amended): the Cleanup Pipeline is not idempotent; escape-character
repair doubles the backslash of an invalid escape on every application,
so the output keeps growing: `\a` cleans to `\\\a`, which cleans to
`\\\\\a`. -/
theorem C3_escape_repair_grows :
    cleanJsonText "\\a" = "\\\\\\a" ∧ cleanJsonText "\\\\\\a" = "\\\\\\\\\\a" :=
  ⟨rfl, rfl⟩

set_option maxRecDepth 8000 in
/-- C3 (counterexample): applying the pipeline twice to `\a` does not
equal applying it once. -/
theorem C3_counterexample :
    cleanJsonText (cleanJsonText "\\a") ≠ cleanJsonText "\\a" := by decide

theorem listIncl_singleton (c : Char) (l : List Char) : listIncl [c] l = true ↔ c ∈ l := by
  induction l with
  | nil => simp [listIncl]
  | cons d ds ih =>
    show ([c].isPrefixOf (d :: ds) || listIncl [c] ds) = true ↔ _
    have hp : [c].isPrefixOf (d :: ds) = (c == d) := by
      show (c == d && List.isPrefixOf [] ds) = _
      simp [List.isPrefixOf]
    rw [Bool.or_eq_true, ih, hp, List.mem_cons]
    simp [beq_iff_eq]

/-- C4 (amended): `fixArrayElementSeparation` appends closing braces only
when the candidate after fixes 1–6 contains `{` and no `}` at all; in
that case it appends exactly the open-brace surplus before the final
comma cleanup, while any present `}` suppresses the append even when open
braces outnumber close braces.  Concretely, `{"a": 1` gains its closing
brace. -/
theorem C4_brace_append_condition :
    (∀ l : List Char, listIncl [lbrace] (fix1to6 l) = true →
      listIncl [rbrace] (fix1to6 l) = false →
      fixArrayElementSeparation l =
        fix8 (fix1to6 l ++
          List.replicate (countChar lbrace (fix1to6 l) - countChar rbrace (fix1to6 l)) rbrace)) ∧
    (∀ l : List Char, listIncl [rbrace] (fix1to6 l) = true →
      fixArrayElementSeparation l = fix8 (fix1to6 l)) ∧
    fixArrayElementSeparation "\x7b\"a\": 1".data = "\x7b\"a\": 1\x7d".data := by
  refine ⟨fun l h1 h2 => ?_, fun l h2 => ?_, by decide⟩
  · unfold fixArrayElementSeparation fix7
    have hmem : lbrace ∈ fix1to6 l := (listIncl_singleton _ _).mp h1
    have hnot : rbrace ∉ fix1to6 l := by
      intro hm
      rw [(listIncl_singleton _ _).mpr hm] at h2
      simp at h2
    have hco : countChar rbrace (fix1to6 l) = 0 := by
      simpa [countChar] using List.count_eq_zero.mpr hnot
    have hcl : 0 < countChar lbrace (fix1to6 l) := by
      simpa [countChar] using List.count_pos_iff.mpr hmem
    rw [if_pos ⟨h1, by simp [h2]⟩, if_pos (by omega)]
  · unfold fixArrayElementSeparation fix7
    rw [if_neg]
    rintro ⟨-, hno⟩
    exact hno h2

/-- C4 (witness): the append branch at `{"a": 1` and the suppressed
branch at `{{}`. -/
theorem C4_witness :
    listIncl [lbrace] (fix1to6 "\x7b\"a\": 1".data) = true ∧
    listIncl [rbrace] (fix1to6 "\x7b\"a\": 1".data) = false ∧
    fixArrayElementSeparation "\x7b\"a\": 1".data =
      fix8 (fix1to6 "\x7b\"a\": 1".data ++
        List.replicate (countChar lbrace (fix1to6 "\x7b\"a\": 1".data) -
          countChar rbrace (fix1to6 "\x7b\"a\": 1".data)) rbrace) ∧
    listIncl [rbrace] (fix1to6 "\x7b\x7b\x7d".data) = true ∧
    fixArrayElementSeparation "\x7b\x7b\x7d".data = fix8 (fix1to6 "\x7b\x7b\x7d".data) :=
  ⟨by decide, by decide, C4_brace_append_condition.1 _ (by decide) (by decide), by decide,
    C4_brace_append_condition.2.1 _ (by decide)⟩

/-- C4 (counterexample): in `{{}` the open braces outnumber the close
braces, yet nothing is appended — the append is guarded by the absence of
any `}`, not by the count comparison the claim states. -/
theorem C4_counterexample :
    countChar lbrace "\x7b\x7b\x7d".data = 2 ∧
    countChar rbrace "\x7b\x7b\x7d".data = 1 ∧
    fixArrayElementSeparation "\x7b\x7b\x7d".data = "\x7b\x7b\x7d".data := by
  decide

end RespComp
